import Mathlib

/-!
Shallow embedding of SumatraPDF's geometry utilities
(`src/utils/GeomUtil.h`, namespace `geomutil`) and of the tree-model
visitor (`VisitTreeModelItems` / `VisitTreeItemRec`).

The C++ templates `PointT<T>`, `SizeT<T>`, `RectT<T>` are embedded as
structures parametrised over a linearly ordered commutative ring; the
program instantiates them at `int` (embedded as `Int`) and `double`
(embedded as `ℚ`, exact arithmetic).  A `RectT` stores two corner points
`min` and `max`, exactly as the source does; the `(x, y, dx, dy)`
constructor, the accessors and every operation are translated line by
line from the source.
-/

namespace geomutil

/-- The C++ `PointT<T>`: a point with coordinates `x`, `y`. -/
structure PointT (α : Type) where
  x : α
  y : α
deriving DecidableEq

/-- The C++ `SizeT<T>`: a size with extents `dx`, `dy`. -/
structure SizeT (α : Type) where
  dx : α
  dy : α
deriving DecidableEq

/-- The C++ `RectT<T>`: a rectangle stored as the two corner points `min`, `max`. -/
structure RectT (α : Type) where
  min : PointT α
  max : PointT α
deriving DecidableEq

variable {α : Type} [LinearOrderedCommRing α]

/-- Method `PointT::empty()`: `x == 0 && y == 0` (conjunctive). -/
def PointT.empty (p : PointT α) : Bool :=
  decide (p.x = 0) && decide (p.y = 0)

/-- Method `SizeT::IsEmpty()`: `dx == 0 || dy == 0` (disjunctive). -/
def SizeT.IsEmpty (s : SizeT α) : Bool :=
  decide (s.dx = 0) || decide (s.dy = 0)

/-- The `RectT(T x, T y, T dx, T dy)` constructor:
`min = (x, y)`, `max = (x + dx, y + dy)`. -/
def RectT.make (x y dx dy : α) : RectT α :=
  ⟨⟨x, y⟩, ⟨x + dx, y + dy⟩⟩

/-- The default constructor `RectT()`: both corners zero. -/
def RectT.zero : RectT α := ⟨⟨0, 0⟩, ⟨0, 0⟩⟩

/-- Accessor `RectT::X()`. -/
def RectT.X (r : RectT α) : α := r.min.x

/-- Accessor `RectT::Y()`. -/
def RectT.Y (r : RectT α) : α := r.min.y

/-- Accessor `RectT::Width()`: `max.x - min.x`. -/
def RectT.Width (r : RectT α) : α := r.max.x - r.min.x

/-- Accessor `RectT::Height()`: `max.y - min.y`. -/
def RectT.Height (r : RectT α) : α := r.max.y - r.min.y

/-- Accessor `RectT::Dx()`: `max.x - min.x`. -/
def RectT.Dx (r : RectT α) : α := r.max.x - r.min.x

/-- Accessor `RectT::Dy()`: `max.y - min.y`. -/
def RectT.Dy (r : RectT α) : α := r.max.y - r.min.y

/-- Static `RectT::FromXY(T xs, T ys, T xe, T ye)`: normalises each axis so the
extent is non-negative, swapping the start to the end coordinate when the
raw extent is negative. -/
def RectT.FromXY (xs ys xe ye : α) : RectT α :=
  let dx := xe - xs
  let xs' := if dx < 0 then xe else xs
  let dx' := if dx < 0 then -dx else dx
  let dy := ye - ys
  let ys' := if dy < 0 then ye else ys
  let dy' := if dy < 0 then -dy else dy
  RectT.make xs' ys' dx' dy'

/-- The `RectT::FromXY(PointT TL, PointT BR)` overload: delegates to the
coordinate version. -/
def RectT.FromPoints (TL BR : PointT α) : RectT α :=
  RectT.FromXY TL.x TL.y BR.x BR.y

/-- Method `RectT::Contains(PointT pt)`: four early-return guards, closed on all
four edges. -/
def RectT.Contains (r : RectT α) (pt : PointT α) : Bool :=
  if pt.x < r.X then false
  else if pt.x > r.X + r.Dx then false
  else if pt.y < r.Y then false
  else if pt.y > r.Y + r.Dy then false
  else true

/-- Method `RectT::Intersect(RectT other)`: larger of the starts, smaller of the
ends; an all-zero `RectT()` when a resulting extent is not positive. -/
def RectT.Intersect (r other : RectT α) : RectT α :=
  let x := Max.max r.X other.X
  let y := Max.max r.Y other.Y
  let dx := Min.min (r.X + r.Dx) (other.X + other.Dx) - x
  let dy := Min.min (r.Y + r.Dy) (other.Y + other.Dy) - y
  if dx ≤ 0 ∨ dy ≤ 0 then RectT.zero
  else RectT.make x y dx dy

/-- Method `RectT::Union(RectT other)`: returns the other operand when one has
both extents `≤ 0`; otherwise smaller of the starts, larger of the ends. -/
def RectT.Union (r other : RectT α) : RectT α :=
  if r.Dx ≤ 0 ∧ r.Dy ≤ 0 then other
  else if other.Dx ≤ 0 ∧ other.Dy ≤ 0 then r
  else
    let x := Min.min r.X other.X
    let y := Min.min r.Y other.Y
    let dx := Max.max (r.X + r.Dx) (other.X + other.Dx) - x
    let dy := Max.max (r.Y + r.Dy) (other.Y + other.Dy) - y
    RectT.make x y dx dy

/-- Method `RectT::Offset(T _x, T _y)`: adds the offset to `min` only; `max` is
left untouched, exactly as in the source. -/
def RectT.Offset (r : RectT α) (x y : α) : RectT α :=
  ⟨⟨r.min.x + x, r.min.y + y⟩, r.max⟩

/-- Constant `FLT_EPSILON = 1.192092896e-07f`, as an exact rational. -/
def FLT_EPSILON : ℚ := 1192092896 / 10000000000000000

/-- Method `RectT<double>::Round()`: `FromXY(floor(X+ε), floor(Y+ε),
ceil(X+Dx-ε), ceil(Y+Dy-ε))`, producing a `RectT<int>`. -/
def RectT.Round (r : RectT ℚ) : RectT Int :=
  RectT.FromXY ⌊r.X + FLT_EPSILON⌋ ⌊r.Y + FLT_EPSILON⌋
    ⌈r.X + r.Dx - FLT_EPSILON⌉ ⌈r.Y + r.Dy - FLT_EPSILON⌉

/-- The `Contains` test of an integer rectangle read at a rational point:
the same four closed-edge guards as `RectT::Contains`, with the integer
coordinates coerced to `ℚ`.  This is the membership used to compare
`Round`'s integer result with points of the original `double` rectangle. -/
def RectT.ContainsQ (r : RectT Int) (pt : PointT ℚ) : Bool :=
  if pt.x < (r.X : ℚ) then false
  else if pt.x > (r.X : ℚ) + (r.Dx : ℚ) then false
  else if pt.y < (r.Y : ℚ) then false
  else if pt.y > (r.Y : ℚ) + (r.Dy : ℚ) then false
  else true

end geomutil

/-- A tree-model item (`TreeItem`): only its children are relevant to the
visitor; `ChildCount()` is the length of the child list and `ChildAt(i)`
indexes into it. -/
inductive TreeItem where
  | mk : List TreeItem → TreeItem

mutual

/-- Embedding of `VisitTreeItemRec(TreeItem* ti, visitor)`.  The nullable
pointer `ti` is an `Option TreeItem` (`none` is the null pointer); the
result `none` models a null-pointer dereference.  The source guards the
`visitor(ti)` call with `if (ti != nullptr)`, but then evaluates
`ti->ChildCount()` unconditionally, so the `none` case dereferences the
null pointer and is embedded as the crash value `none`. -/
def VisitTreeItemRec (v : TreeItem → Bool) : Option TreeItem → Option Bool
  | none => none
  | some (.mk cs) =>
    if v (.mk cs) then visitChildren v cs else some false
termination_by ti => sizeOf ti
decreasing_by all_goals (simp_wf; try omega)

/-- Embedding of the child loop of `VisitTreeItemRec`: visit each child in
order, stopping at the first `false` (or propagating a crash). -/
def visitChildren (v : TreeItem → Bool) : List TreeItem → Option Bool
  | [] => some true
  | c :: cs =>
    match VisitTreeItemRec v (some c) with
    | none => none
    | some false => some false
    | some true => visitChildren v cs
termination_by l => 1 + sizeOf l
decreasing_by all_goals (simp_wf; try omega)

end

/-- Embedding of `VisitTreeModelItems(TreeItem* ti, visitor)`: delegates to
`VisitTreeItemRec`. -/
def VisitTreeModelItems (v : TreeItem → Bool) (ti : Option TreeItem) : Option Bool :=
  VisitTreeItemRec v ti

namespace geomutil

lemma contains_iff (r : RectT Int) (p : PointT Int) :
    r.Contains p = true ↔
      r.X ≤ p.x ∧ p.x ≤ r.X + r.Dx ∧ r.Y ≤ p.y ∧ p.y ≤ r.Y + r.Dy := by
  unfold RectT.Contains
  split_ifs <;> simp_all <;> omega

/-- C9: Point emptiness is conjunctive while Size emptiness is disjunctive:
`Point(x, y)` is empty iff `x == 0` and `y == 0`, while `Size(dx, dy)` is
empty iff `dx == 0` or `dy == 0`; concretely `Size(0,5)` is empty while
`Point(0,5)` is not. -/
theorem point_empty_and_size_isEmpty_spec :
    (∀ x y : Int, (PointT.mk x y).empty = true ↔ x = 0 ∧ y = 0) ∧
    (∀ dx dy : Int, (SizeT.mk dx dy).IsEmpty = true ↔ dx = 0 ∨ dy = 0) ∧
    (SizeT.mk (0 : Int) 5).IsEmpty = true ∧
    (PointT.mk (0 : Int) 5).empty = false := by
  refine ⟨?_, ?_, by decide, by decide⟩
  · intro x y
    simp [PointT.empty]
  · intro dx dy
    simp [SizeT.IsEmpty]

/-- C1: the claim states that `Offset(dx, dy)` preserves `Width()` and
`Height()` while shifting `X()` by `dx` and `Y()` by `dy`.  The source
translates only `min`, so `X` and `Y` shift as claimed but `Width` and
`Height` shrink by the offset: at the failing input `r = (0,0,10,10)` with
`dx = dy = 1` the offset rectangle has `Width = 9` instead of `10`. -/
theorem Offset_translates_only_min :
    (∀ (r : RectT Int) (dx dy : Int),
      (r.Offset dx dy).X = r.X + dx ∧ (r.Offset dx dy).Y = r.Y + dy ∧
      (r.Offset dx dy).Width = r.Width - dx ∧
      (r.Offset dx dy).Height = r.Height - dy) ∧
    ((RectT.make (0 : Int) 0 10 10).Offset 1 1).Width = 9 ∧
    (RectT.make (0 : Int) 0 10 10).Width = 10 := by
  refine ⟨?_, by decide, by decide⟩
  intro r dx dy
  refine ⟨rfl, rfl, ?_, ?_⟩ <;>
    simp [RectT.Offset, RectT.Width, RectT.Height] <;> ring

/-- C7: rectangle intersection is commutative:
`Intersect(a, b) == Intersect(b, a)`. -/
theorem Intersect_comm (a b : RectT Int) : a.Intersect b = b.Intersect a := by
  simp only [RectT.Intersect]
  rw [max_comm b.X a.X, max_comm b.Y a.Y,
    min_comm (b.X + b.Dx) (a.X + a.Dx), min_comm (b.Y + b.Dy) (a.Y + a.Dy)]

/-- C6: the two-corner constructor `FromXY(p1, p2)` yields non-negative
width and height, and is symmetric in its two corner arguments. -/
theorem FromPoints_nonneg_comm (p1 p2 : PointT Int) :
    0 ≤ (RectT.FromPoints p1 p2).Width ∧ 0 ≤ (RectT.FromPoints p1 p2).Height ∧
    RectT.FromPoints p1 p2 = RectT.FromPoints p2 p1 := by
  obtain ⟨x1, y1⟩ := p1
  obtain ⟨x2, y2⟩ := p2
  simp only [RectT.FromPoints, RectT.FromXY, RectT.make, RectT.Width, RectT.Height]
  refine ⟨?_, ?_, ?_⟩ <;> split_ifs <;>
    simp_all [RectT.mk.injEq, PointT.mk.injEq] <;> omega

/-- C8: `Contains` is closed on the far edges: for a rectangle with
non-negative extents, `Contains(p)` holds iff `X ≤ px ≤ X + Width` and
`Y ≤ py ≤ Y + Height`; in particular `(0,0,10,10)` contains `(10,10)`
(see the witness). -/
theorem Contains_closed_iff (r : RectT Int) (p : PointT Int)
    (hdx : 0 ≤ r.Dx) (hdy : 0 ≤ r.Dy) :
    r.Contains p = true ↔
      r.X ≤ p.x ∧ p.x ≤ r.X + r.Width ∧ r.Y ≤ p.y ∧ p.y ≤ r.Y + r.Height := by
  have h := contains_iff r p
  simpa [RectT.Width, RectT.Height, RectT.Dx, RectT.Dy] using h

/-- Witness for C8: the rectangle `(0,0,10,10)` has non-negative extents
and contains the far-corner point `(10,10)`. -/
theorem Contains_closed_iff_witness :
    (0 : Int) ≤ (RectT.make (0 : Int) 0 10 10).Dx ∧
    (0 : Int) ≤ (RectT.make (0 : Int) 0 10 10).Dy ∧
    (RectT.make (0 : Int) 0 10 10).Contains (PointT.mk 10 10) = true :=
  ⟨by decide, by decide,
    (Contains_closed_iff (RectT.make 0 0 10 10) (PointT.mk 10 10)
      (by decide) (by decide)).mpr (by decide)⟩

end geomutil

namespace geomutil

/-- C5: `Union` returns the other operand unchanged via its short-circuit
exactly under the guard "both extents `≤ 0`": when `a` has both extents
`≤ 0` the result is `b`; when `a` does not but `b` does, the result is `a`;
when neither does, the result takes per axis the min of the starts and the
max of the ends — in particular the rectangle `(0,0,0,5)` (empty in one
dimension only) is not short-circuited. -/
theorem Union_shortcircuit_guard (a b : RectT Int) :
    ((a.Dx ≤ 0 ∧ a.Dy ≤ 0) → a.Union b = b) ∧
    (¬(a.Dx ≤ 0 ∧ a.Dy ≤ 0) → (b.Dx ≤ 0 ∧ b.Dy ≤ 0) → a.Union b = a) ∧
    (¬(a.Dx ≤ 0 ∧ a.Dy ≤ 0) → ¬(b.Dx ≤ 0 ∧ b.Dy ≤ 0) →
      (a.Union b).X = Min.min a.X b.X ∧ (a.Union b).Y = Min.min a.Y b.Y ∧
      (a.Union b).X + (a.Union b).Dx = Max.max (a.X + a.Dx) (b.X + b.Dx) ∧
      (a.Union b).Y + (a.Union b).Dy = Max.max (a.Y + a.Dy) (b.Y + b.Dy)) ∧
    (RectT.make (0 : Int) 0 0 5).Union (RectT.make 10 10 1 1) ≠
      RectT.make 10 10 1 1 := by
  refine ⟨?_, ?_, ?_, by decide⟩
  · intro h
    simp [RectT.Union, h]
  · intro h1 h2
    simp [RectT.Union, h1, h2]
  · intro h1 h2
    simp only [RectT.Union, if_neg h1, if_neg h2]
    refine ⟨rfl, rfl, ?_, ?_⟩ <;>
      simp [RectT.make, RectT.X, RectT.Y, RectT.Dx, RectT.Dy] <;> ring

/-- Witness for C5: a rectangle with both extents zero is short-circuited,
so its union with `(5,5,1,1)` is `(5,5,1,1)` unchanged. -/
theorem Union_shortcircuit_guard_witness :
    (RectT.make (0 : Int) 0 0 0).Union (RectT.make 5 5 1 1) =
      RectT.make 5 5 1 1 :=
  (Union_shortcircuit_guard (RectT.make 0 0 0 0) (RectT.make 5 5 1 1)).1
    (by decide)

/-- C4: `Intersect` takes per axis the max of the starts and the min of the
ends; whenever the resulting width or height is `≤ 0` it returns the
canonical all-zero empty rectangle; its result never has negative extents;
and two rectangles with no common point intersect to the zero rectangle. -/
theorem Intersect_spec (a b : RectT Int) :
    (0 ≤ (a.Intersect b).Dx ∧ 0 ≤ (a.Intersect b).Dy) ∧
    ((Min.min (a.X + a.Dx) (b.X + b.Dx) - Max.max a.X b.X ≤ 0 ∨
      Min.min (a.Y + a.Dy) (b.Y + b.Dy) - Max.max a.Y b.Y ≤ 0) →
      a.Intersect b = RectT.zero) ∧
    (¬(Min.min (a.X + a.Dx) (b.X + b.Dx) - Max.max a.X b.X ≤ 0 ∨
       Min.min (a.Y + a.Dy) (b.Y + b.Dy) - Max.max a.Y b.Y ≤ 0) →
      (a.Intersect b).X = Max.max a.X b.X ∧
      (a.Intersect b).Y = Max.max a.Y b.Y ∧
      (a.Intersect b).X + (a.Intersect b).Dx =
        Min.min (a.X + a.Dx) (b.X + b.Dx) ∧
      (a.Intersect b).Y + (a.Intersect b).Dy =
        Min.min (a.Y + a.Dy) (b.Y + b.Dy)) ∧
    ((¬∃ p : PointT Int, a.Contains p = true ∧ b.Contains p = true) →
      a.Intersect b = RectT.zero) := by
  refine ⟨?_, ?_, ?_, ?_⟩
  · simp only [RectT.Intersect]
    split_ifs with h
    · simp [RectT.zero, RectT.Dx, RectT.Dy]
    · push_neg at h
      obtain ⟨hx, hy⟩ := h
      simp only [RectT.make, RectT.X, RectT.Y, RectT.Dx, RectT.Dy] at hx hy ⊢
      constructor <;> linarith
  · intro h
    simp only [RectT.Intersect]
    rw [if_pos h]
  · intro h
    simp only [RectT.Intersect, if_neg h]
    refine ⟨rfl, rfl, ?_, ?_⟩ <;>
      dsimp only [RectT.make, RectT.X, RectT.Y, RectT.Dx, RectT.Dy] <;> ring
  · intro h
    by_cases hc :
      (Min.min (a.X + a.Dx) (b.X + b.Dx) - Max.max a.X b.X ≤ 0 ∨
       Min.min (a.Y + a.Dy) (b.Y + b.Dy) - Max.max a.Y b.Y ≤ 0)
    · simp only [RectT.Intersect]
      rw [if_pos hc]
    · exfalso
      apply h
      push_neg at hc
      obtain ⟨hx, hy⟩ := hc
      refine ⟨⟨Max.max a.X b.X, Max.max a.Y b.Y⟩, ?_, ?_⟩ <;> rw [contains_iff] <;>
        dsimp only
      · have h1 := min_le_left (a.X + a.Dx) (b.X + b.Dx)
        have h2 := min_le_left (a.Y + a.Dy) (b.Y + b.Dy)
        exact ⟨le_max_left _ _, by linarith, le_max_left _ _, by linarith⟩
      · have h1 := min_le_right (a.X + a.Dx) (b.X + b.Dx)
        have h2 := min_le_right (a.Y + a.Dy) (b.Y + b.Dy)
        exact ⟨le_max_right _ _, by linarith, le_max_right _ _, by linarith⟩

/-- Witness for C4: the disjoint rectangles `(0,0,1,1)` and `(5,5,1,1)`
intersect to the canonical zero rectangle. -/
theorem Intersect_spec_witness :
    (RectT.make (0 : Int) 0 1 1).Intersect (RectT.make 5 5 1 1) = RectT.zero :=
  (Intersect_spec (RectT.make 0 0 1 1) (RectT.make 5 5 1 1)).2.1 (by decide)

/-- Counterexample to C3 as stated: the rectangle `a = (0,0,0,0)` contains
the point `(0,0)` (all four closed-edge guards pass), yet
`Union(a, (5,5,1,1))` short-circuits to `(5,5,1,1)`, which does not contain
`(0,0)`. -/
theorem Union_contains_counterexample :
    (RectT.make (0 : Int) 0 0 0).Contains (PointT.mk 0 0) = true ∧
    ((RectT.make (0 : Int) 0 0 0).Union (RectT.make 5 5 1 1)).Contains
      (PointT.mk 0 0) = false := by
  decide

/-- C3 amended: `Union(a, b)` contains every point of an operand that is
not short-circuit-empty: if `a` contains `p` and `a` does not have both
extents `≤ 0` (or symmetrically for `b`), then `Union(a, b)` contains `p`.
Points of an operand with both extents `≤ 0` can be lost, as the
counterexample shows. -/
theorem Union_contains_amended (a b : RectT Int) (p : PointT Int)
    (h : (a.Contains p = true ∧ ¬(a.Dx ≤ 0 ∧ a.Dy ≤ 0)) ∨
         (b.Contains p = true ∧ ¬(b.Dx ≤ 0 ∧ b.Dy ≤ 0))) :
    (a.Union b).Contains p = true := by
  by_cases ha : a.Dx ≤ 0 ∧ a.Dy ≤ 0
  · rcases h with ⟨_, hna⟩ | ⟨hb, _⟩
    · exact absurd ha hna
    · simpa [RectT.Union, ha] using hb
  · by_cases hb : b.Dx ≤ 0 ∧ b.Dy ≤ 0
    · rcases h with ⟨hpa, _⟩ | ⟨_, hnb⟩
      · simpa [RectT.Union, ha, hb] using hpa
      · exact absurd hb hnb
    · simp only [RectT.Union, if_neg ha, if_neg hb]
      rw [contains_iff]
      dsimp only [RectT.make, RectT.X, RectT.Y, RectT.Dx, RectT.Dy]
      rcases h with ⟨hp, _⟩ | ⟨hp, _⟩
      · rw [contains_iff] at hp
        obtain ⟨h1, h2, h3, h4⟩ := hp
        have l1 := min_le_left a.X b.X
        have l2 := le_max_left (a.X + a.Dx) (b.X + b.Dx)
        have l3 := min_le_left a.Y b.Y
        have l4 := le_max_left (a.Y + a.Dy) (b.Y + b.Dy)
        simp only [RectT.X, RectT.Y, RectT.Dx, RectT.Dy] at h1 h2 h3 h4 l1 l2 l3 l4 ⊢
        exact ⟨by linarith, by linarith, by linarith, by linarith⟩
      · rw [contains_iff] at hp
        obtain ⟨h1, h2, h3, h4⟩ := hp
        have l1 := min_le_right a.X b.X
        have l2 := le_max_right (a.X + a.Dx) (b.X + b.Dx)
        have l3 := min_le_right a.Y b.Y
        have l4 := le_max_right (a.Y + a.Dy) (b.Y + b.Dy)
        simp only [RectT.X, RectT.Y, RectT.Dx, RectT.Dy] at h1 h2 h3 h4 l1 l2 l3 l4 ⊢
        exact ⟨by linarith, by linarith, by linarith, by linarith⟩

/-- Witness for C3 (amended): `(0,0,10,10)` contains `(0,0)` and is not
short-circuit-empty, and the union with `(5,5,10,10)` still contains
`(0,0)`. -/
theorem Union_contains_amended_witness :
    ((RectT.make (0 : Int) 0 10 10).Union (RectT.make 5 5 10 10)).Contains
      (PointT.mk 0 0) = true :=
  Union_contains_amended (RectT.make 0 0 10 10) (RectT.make 5 5 10 10)
    (PointT.mk 0 0) (Or.inl ⟨by decide, by decide⟩)

end geomutil

namespace geomutil

lemma FromXY_of_le (xs ys xe ye : Int) (hx : xs ≤ xe) (hy : ys ≤ ye) :
    RectT.FromXY xs ys xe ye = RectT.make xs ys (xe - xs) (ye - ys) := by
  simp only [RectT.FromXY]
  rw [if_neg (by omega), if_neg (by omega), if_neg (by omega), if_neg (by omega)]

lemma containsRat_iff (r : RectT ℚ) (p : PointT ℚ) :
    r.Contains p = true ↔
      r.X ≤ p.x ∧ p.x ≤ r.X + r.Dx ∧ r.Y ≤ p.y ∧ p.y ≤ r.Y + r.Dy := by
  unfold RectT.Contains
  split_ifs with h1 h2 h3 h4 <;> simp_all <;> intros <;> linarith

lemma containsQ_iff (r : RectT Int) (p : PointT ℚ) :
    r.ContainsQ p = true ↔
      (r.X : ℚ) ≤ p.x ∧ p.x ≤ (r.X : ℚ) + (r.Dx : ℚ) ∧
      (r.Y : ℚ) ≤ p.y ∧ p.y ≤ (r.Y : ℚ) + (r.Dy : ℚ) := by
  unfold RectT.ContainsQ
  split_ifs with h1 h2 h3 h4 <;> simp_all <;> intros <;> linarith

/-- C2 amended: `Round` contains every point of `r` that lies at least
`FLT_EPSILON` inside each edge.  The unamended claim (`Round(r)` contains
every point of `r`) fails for points within `FLT_EPSILON` of the low edge,
because `floor(X + ε)` can exceed `X`; see the counterexample. -/
theorem Round_contains_inner (r : RectT ℚ) (p : PointT ℚ)
    (hx1 : r.X + FLT_EPSILON ≤ p.x) (hx2 : p.x ≤ r.X + r.Dx - FLT_EPSILON)
    (hy1 : r.Y + FLT_EPSILON ≤ p.y) (hy2 : p.y ≤ r.Y + r.Dy - FLT_EPSILON) :
    r.Round.ContainsQ p = true := by
  unfold RectT.Round
  have ha : (⌊r.X + FLT_EPSILON⌋ : ℚ) ≤ r.X + FLT_EPSILON := Int.floor_le _
  have hb : (⌊r.Y + FLT_EPSILON⌋ : ℚ) ≤ r.Y + FLT_EPSILON := Int.floor_le _
  have hc : (r.X + r.Dx - FLT_EPSILON : ℚ) ≤ ⌈r.X + r.Dx - FLT_EPSILON⌉ :=
    Int.le_ceil _
  have hd : (r.Y + r.Dy - FLT_EPSILON : ℚ) ≤ ⌈r.Y + r.Dy - FLT_EPSILON⌉ :=
    Int.le_ceil _
  have hac : ⌊r.X + FLT_EPSILON⌋ ≤ ⌈r.X + r.Dx - FLT_EPSILON⌉ := by
    have h : (⌊r.X + FLT_EPSILON⌋ : ℚ) ≤ (⌈r.X + r.Dx - FLT_EPSILON⌉ : ℚ) := by
      linarith
    exact_mod_cast h
  have hbd : ⌊r.Y + FLT_EPSILON⌋ ≤ ⌈r.Y + r.Dy - FLT_EPSILON⌉ := by
    have h : (⌊r.Y + FLT_EPSILON⌋ : ℚ) ≤ (⌈r.Y + r.Dy - FLT_EPSILON⌉ : ℚ) := by
      linarith
    exact_mod_cast h
  rw [FromXY_of_le _ _ _ _ hac hbd, containsQ_iff]
  simp only [RectT.make, RectT.X, RectT.Y, RectT.Dx, RectT.Dy] at *
  push_cast
  refine ⟨by linarith, by linarith, by linarith, by linarith⟩

/-- Witness for C2 (amended): the centre point `(1/2, 1/2)` of the unit
rectangle lies at least `FLT_EPSILON` inside each edge, and the rounded
rectangle contains it. -/
theorem Round_contains_inner_witness :
    (RectT.make (0 : ℚ) 0 1 1).Round.ContainsQ (PointT.mk (1/2) (1/2)) = true :=
  Round_contains_inner (RectT.make 0 0 1 1) (PointT.mk (1/2) (1/2))
    (by norm_num [RectT.make, RectT.X, RectT.Dx, FLT_EPSILON])
    (by norm_num [RectT.make, RectT.X, RectT.Dx, FLT_EPSILON])
    (by norm_num [RectT.make, RectT.Y, RectT.Dy, FLT_EPSILON])
    (by norm_num [RectT.make, RectT.Y, RectT.Dy, FLT_EPSILON])

/-- Counterexample to C2 as stated: the rectangle with `X = -ε/2` contains
its own corner point `(-ε/2, 0)`, but `Round` floors the nudged low edge
`-ε/2 + ε = ε/2` to `0 > -ε/2`, so the rounded rectangle does not contain
that point. -/
theorem Round_not_superset_counterexample :
    (RectT.make (-FLT_EPSILON/2) 0 1 1).Contains
      (PointT.mk (-FLT_EPSILON/2) 0) = true ∧
    (RectT.make (-FLT_EPSILON/2) 0 1 1).Round.ContainsQ
      (PointT.mk (-FLT_EPSILON/2) 0) = false := by
  have hX : (RectT.make (-FLT_EPSILON/2) (0 : ℚ) 1 1).X = -FLT_EPSILON/2 := rfl
  have hY : (RectT.make (-FLT_EPSILON/2) (0 : ℚ) 1 1).Y = 0 := rfl
  have hDx : (RectT.make (-FLT_EPSILON/2) (0 : ℚ) 1 1).Dx = 1 := by
    simp [RectT.make, RectT.Dx]
  have hDy : (RectT.make (-FLT_EPSILON/2) (0 : ℚ) 1 1).Dy = 1 := by
    simp [RectT.make, RectT.Dy]
  constructor
  · rw [containsRat_iff, hX, hY, hDx, hDy]
    norm_num [FLT_EPSILON]
  · have hr : (RectT.make (-FLT_EPSILON/2) (0 : ℚ) 1 1).Round =
        RectT.make 0 0 1 1 := by
      unfold RectT.Round
      rw [hX, hY, hDx, hDy]
      have f1 : ⌊-FLT_EPSILON/2 + FLT_EPSILON⌋ = 0 := by
        rw [Int.floor_eq_iff]
        norm_num [FLT_EPSILON]
      have f2 : ⌊(0 : ℚ) + FLT_EPSILON⌋ = 0 := by
        rw [Int.floor_eq_iff]
        norm_num [FLT_EPSILON]
      have f3 : ⌈-FLT_EPSILON/2 + 1 - FLT_EPSILON⌉ = 1 := by
        rw [Int.ceil_eq_iff]
        norm_num [FLT_EPSILON]
      have f4 : ⌈(0 : ℚ) + 1 - FLT_EPSILON⌉ = 1 := by
        rw [Int.ceil_eq_iff]
        norm_num [FLT_EPSILON]
      rw [f1, f2, f3, f4, FromXY_of_le 0 0 1 1 (by norm_num) (by norm_num)]
      simp [RectT.make]
    rw [hr, Bool.eq_false_iff]
    rw [ne_eq, containsQ_iff]
    norm_num [RectT.make, RectT.X, RectT.Y, RectT.Dx, RectT.Dy, FLT_EPSILON]

end geomutil

/-- C10: the claim states that calling `VisitTreeModelItems` with a null
tree item is safe and returns `true` without accessing the item.  In the
source the null check guards only the `visitor(ti)` call; `ti->ChildCount()`
is then evaluated unconditionally, so a null item is dereferenced: the
embedding returns the crash value `none`, never `some true`. -/
theorem VisitTreeModelItems_null_dereferences (v : TreeItem → Bool) :
    VisitTreeModelItems v none = none ∧ VisitTreeModelItems v none ≠ some true := by
  have h : VisitTreeModelItems v none = none := by
    simp [VisitTreeModelItems, VisitTreeItemRec]
  exact ⟨h, by simp [h]⟩
